import Mathlib

/-!
# Voltage-sweep acquisition program (`src/app/src/main.c`)

A shallow embedding of the program and the properties proved about it.

Conventions of the embedding:

* The value of a C `double` is a rational (`ℚ`). The sweep voltages are
  computed exactly, with `VOLTAGE_STEP = 1/10` and `VOLTAGE_MAX = 10`; the
  arithmetic of `get_time` is binary64: every operation is rounded to the
  nearest representable number (`fl`), and its 64-bit integer subtractions
  are taken modulo `2^64` (`wrap64`).
* C strings and byte buffers are `List Char`; the terminator is `NUL`.
* The `int` counter `vac_index` stays within 0..101 and is a `Nat`.
* Everything the program obtains from outside (return values of `open`,
  `fopen`, `popen`, `mkdir`, `gettimeofday`, the bytes delivered by a device
  read, the lines delivered by `fgets`, the moment the other thread clears the
  run flag) is an explicit input of the function that consumes it.
* Everything the program does to the outside is appended to a trace of
  `Event`s.
* The numeric conversion of libc (`%lf` of `sscanf`, `atof`) is a parameter
  `conv`; `decConv` is a plain decimal instance of it used in examples.
-/

namespace Vac

/-! ## Configuration (`// === config ===`, `// === pps ===`) -/

/-- The constant `VOLTAGE_MAX` (10.0). -/
def VOLTAGE_MAX : ℚ := 10

/-- The constant `VOLTAGE_STEP` (0.1). -/
def VOLTAGE_STEP : ℚ := 1 / 10

/-- The string terminator, the byte 0. -/
def NUL : Char := Char.ofNat 0

/-! ## `get_time` -/

/-- The C `struct timeval`. -/
structure Timeval where
  tv_sec : Int
  tv_usec : Int
deriving DecidableEq

/-- The two `static` variables of `get_time`. -/
structure TimeState where
  first : Int
  t_first : Timeval
deriving DecidableEq

/-- The initial values of the statics: `first = 1`, `t_first = {0}`. -/
def TimeState.init : TimeState := ⟨1, ⟨0, 0⟩⟩

/-- Rounding of a rational to the nearest integer, ties to the even one. -/
def roundHalfEven (q : ℚ) : Int :=
  if q - ⌊q⌋ < 1 / 2 then ⌊q⌋
  else if 1 / 2 < q - ⌊q⌋ then ⌊q⌋ + 1
  else if ⌊q⌋ % 2 = 0 then ⌊q⌋ else ⌊q⌋ + 1

/-- The spacing of the binary64 numbers at the magnitude of `q`: 53
significant bits, least exponent -1074. -/
def ulp (q : ℚ) : ℚ := (2 : ℚ) ^ (max (Int.log 2 |q| - 52) (-1074))

/-- The binary64 number nearest to `q`, ties to even: the result of a
`double` operation whose exact result is `q` (magnitudes below `2^1024`). -/
def fl (q : ℚ) : ℚ := (roundHalfEven (q / ulp q) : ℚ) * ulp q

/-- The result of a 64-bit signed integer operation whose exact result is
`x`. -/
def wrap64 (x : Int) : Int := (x + 2 ^ 63) % 2 ^ 64 - 2 ^ 63

/-- The function `get_time`. `clock` is the outcome of `gettimeofday`: `none`
when it returns -1, `some t` when it succeeds storing `t`. The differences
of the `time_t` and `suseconds_t` fields are 64-bit integers; each is
converted to `double`, and the product with `1e6`, the sum and the quotient
by `1e6` are `double` operations. -/
def get_time (s : TimeState) (clock : Option Timeval) : ℚ × TimeState :=
  if s.first = 1 then
    match clock with
    | none => (-1, s)
    | some t => (0, { first := 0, t_first := t })
  else
    match clock with
    | none => (-2, s)
    | some t =>
      (fl (fl (fl (fl (wrap64 (t.tv_sec - s.t_first.tv_sec) : Int) * 1000000)
            + fl (wrap64 (t.tv_usec - s.t_first.tv_usec) : Int)) / 1000000), s)

/-- The statics of `get_time` after a sequence of calls, starting from `s`. -/
def get_time_calls (s : TimeState) : List (Option Timeval) → TimeState
  | [] => s
  | c :: cs => get_time_calls (get_time s c).2 cs

/-- The reference instant held by the statics, if one has been latched. -/
def latched (s : TimeState) : Option Timeval :=
  if s.first = 1 then none else some s.t_first

/-- The first successful clock read of a sequence of outcomes. -/
def firstSuccess : List (Option Timeval) → Option Timeval
  | [] => none
  | some t :: _ => some t
  | none :: cs => firstSuccess cs

/-! ## Transport reads -/

/-- The function `usbtmc_read`. `rd` is the outcome of `read(2)`: `none` when
it returns -1 (buffer untouched), `some bytes` when it delivers `bytes`, of
which at most `buf_length` are stored. Returns the result and the buffer. -/
def usbtmc_read (buf : List Char) (buf_length : Nat) (rd : Option (List Char)) :
    Int × List Char :=
  match rd with
  | none => (-1, buf)
  | some bytes =>
    let r := min bytes.length buf_length
    ((r : Int), bytes.take r ++ buf.drop r)

/-- The function `gpib_read`. `rd` is the outcome of `ibrd`: `none` when the
status has the error bit `0x8000`, `some bytes` when it delivers `bytes`, with
`ibcnt` the number stored. -/
def gpib_read (buf : List Char) (buf_length : Nat) (rd : Option (List Char)) :
    Int × List Char :=
  match rd with
  | none => (-1, buf)
  | some bytes =>
    let ibcnt := min bytes.length buf_length
    let buf1 := bytes.take ibcnt ++ buf.drop ibcnt
    ((ibcnt : Int), if ibcnt < buf_length then buf1.set ibcnt NUL else buf1)

/-- The macro `dev_read`: `usbtmc_read` when `DEV_AKIP_TMC` is defined (`tmc`),
`gpib_read` otherwise. -/
def dev_read (tmc : Bool) (buf : List Char) (buf_length : Nat) (rd : Option (List Char)) :
    Int × List Char :=
  if tmc then usbtmc_read buf buf_length rd else gpib_read buf buf_length rd

/-- The C string held by a buffer: the bytes before the first `NUL`. -/
def cstr (buf : List Char) : List Char := buf.takeWhile (fun c => c != NUL)

/-! ## Response parsing -/

/-- The numeric conversion of libc: skips leading white space and reads the
longest numeric prefix, giving its value and the unread rest, or `none` when
the text does not start with a number. -/
abbrev Conv := List Char → Option (ℚ × List Char)

/-- What `sscanf(s, "%lf, %lf", &a, &b)` assigns: the first conversion, then a
literal comma, then the second conversion; it stops at the first mismatch. -/
def scan2 (conv : Conv) (s : List Char) : Option ℚ × Option ℚ :=
  match conv s with
  | none => (none, none)
  | some (x, rest) =>
    match rest with
    | ',' :: rest1 =>
      match conv rest1 with
      | none => (some x, none)
      | some (y, _) => (some x, some y)
    | _ => (some x, none)

/-- The call `sscanf(s, "%lf, %lf", &a, &b)`: targets that are not assigned keep
their value. -/
def sscanf_lf_lf (conv : Conv) (s : List Char) (a b : ℚ) : ℚ × ℚ :=
  ((scan2 conv s).1.getD a, (scan2 conv s).2.getD b)

/-- The function `atof`: 0 when no conversion can be performed. -/
def atof (conv : Conv) (s : List Char) : ℚ :=
  match conv s with
  | none => 0
  | some (x, _) => x

/-- Reads decimal digits, accumulating their value and their count. -/
def readDigits (acc n : Nat) : List Char → Nat × Nat × List Char
  | [] => (acc, n, [])
  | c :: cs =>
    if c.isDigit then readDigits (acc * 10 + (c.toNat - 48)) (n + 1) cs
    else (acc, n, c :: cs)

/-- A plain decimal instance of the libc conversion: white space, an optional
sign, digits, an optional fraction (no exponent, no `inf`/`nan`, no hex). -/
def decConv : Conv := fun s =>
  let s0 := s.dropWhile Char.isWhitespace
  let sg : ℚ × List Char :=
    match s0 with
    | '-' :: r => (-1, r)
    | '+' :: r => (1, r)
    | _ => (1, s0)
  let ip := readDigits 0 0 sg.2
  let fp : Nat × Nat × List Char :=
    match ip.2.2 with
    | '.' :: r => readDigits 0 0 r
    | _ => (0, 0, ip.2.2)
  if ip.2.1 + fp.2.1 = 0 then none
  else some (sg.1 * ((ip.1 : ℚ) + (fp.1 : ℚ) / 10 ^ fp.2.1), fp.2.2)

/-! ## The run flag -/

/-- The function `get_run`: the value of the global `run`, read under the read
lock. The argument is the current value of `run`. -/
def get_run (run : Int) : Int := run

/-- The function `set_run`: the value of the global `run` after the call,
written under the write lock. The first argument is the value before. -/
def set_run (_run : Int) (run_new : Int) : Int := run_new

/-! ## The acquisition worker -/

/-- The five resources of `worker`: the oscilloscope transport (`osc_fd`), the
PPS transport (`pps_fd`), the VM transport (`vm_fd`), the record file
(`vac_fp`) and the plot pipe (`gp`). -/
inductive Res
  | osc
  | pps
  | vm
  | vac
  | gp
deriving DecidableEq

/-- The order in which `worker` acquires its resources. -/
def stages : List Res := [Res.osc, Res.pps, Res.vm, Res.vac, Res.gp]

/-- The arguments of the `fprintf` that writes one data line to the record
file, in the order of the call. -/
structure Row where
  vac_index : Nat
  vac_time : ℚ
  pps_voltage : ℚ
  pps_current : ℚ
  vm_voltage : ℚ
  laser_voltage : ℚ
  laser_current : ℚ
  freq : ℚ
  duty : Nat
deriving DecidableEq

/-- What the worker does to the outside world. -/
inductive Event
  /-- An acquisition that succeeded (`open`, `ibfind`, `fopen`, `popen`). -/
  | opened (r : Res)
  /-- An acquisition that failed. -/
  | open_failed (r : Res)
  /-- A fixed command text sent with `dev_write`/`usbtmc_write`/`dev_print`. -/
  | command (r : Res) (text : String)
  /-- The sweep command `dev_print(pps_fd, "voltage %.3lf", voltage)`, with
  the value of `voltage`. -/
  | set_voltage (v : ℚ)
  /-- The settle delay `usleep(STEP_DELAY)`. -/
  | usleep
  /-- The call `ibclr` of `gpib_close`. -/
  | ibclr (r : Res)
  /-- The call `sleep(1)` of `gpib_close`. -/
  | sleep
  /-- The header block written to the record file. -/
  | header (text : List Char)
  /-- A set-up line written to the plot pipe. -/
  | gnuplot (text : String)
  /-- One data line written to the record file. -/
  | row (x : Row)
  /-- The title/plot directive pair written to the plot pipe for a step. -/
  | plot (x : Row) (file : List Char)
  /-- A call `set_run(v)` made by the worker. -/
  | set_run (v : Int)
  /-- A release (`close`, `ibloc`, `fclose`, `pclose`). -/
  | closed (r : Res)
deriving DecidableEq

/-- The data lines of a trace, in order. -/
def rowsOf (t : List Event) : List Row :=
  t.filterMap fun e => match e with
    | Event.row x => some x
    | _ => none

/-- The sweep voltages commanded in a trace, in order. -/
def voltagesOf (t : List Event) : List ℚ :=
  t.filterMap fun e => match e with
    | Event.set_voltage v => some v
    | _ => none

/-- The resources released in a trace, in order. -/
def closesOf (t : List Event) : List Res :=
  t.filterMap fun e => match e with
    | Event.closed r => some r
    | _ => none

/-- The resources acquired in a trace, in order. -/
def opensOf (t : List Event) : List Res :=
  t.filterMap fun e => match e with
    | Event.opened r => some r
    | _ => none

/-- The resources whose acquisition was attempted in a trace, in order. -/
def attemptsOf (t : List Event) : List Res :=
  t.filterMap fun e => match e with
    | Event.opened r => some r
    | Event.open_failed r => some r
    | _ => none

/-- The values the worker passed to `set_run` in a trace, in order. -/
def setRunsOf (t : List Event) : List Int :=
  t.filterMap fun e => match e with
    | Event.set_run v => some v
    | _ => none

/-- The function `usbtmc_close` on resource `r`: a reset command, then
`close`. -/
def usbtmc_close (r : Res) : List Event :=
  [Event.command r "*rst", Event.closed r]

/-- The function `gpib_close` on resource `r`: `ibclr`, the reset command,
`sleep(1)`, and `ibloc`, the release of that backend. -/
def gpib_close (r : Res) : List Event :=
  [Event.ibclr r, Event.command r "*rst", Event.sleep, Event.closed r]

/-- The macro `dev_close`. -/
def dev_close (tmc : Bool) (r : Res) : List Event :=
  if tmc then usbtmc_close r else gpib_close r

/-- The header block that `worker` writes to the record file, one `fprintf`
per line of the definition; `name` is `experiment_name`. -/
def header (name : List Char) : List Char :=
  "# Dependence of alternative voltage on voltage using resistive divider\n".toList
  ++ ("# Experiment name \"".toList ++ name ++ "\"\n".toList)
  ++ "# 1: index\n".toList
  ++ "# 2: time, s\n".toList
  ++ "# 3: pps voltage, V\n".toList
  ++ "# 4: pps current, A\n".toList
  ++ "# 5: vm current, A\n".toList
  ++ "# 6: laser voltage, V\n".toList
  ++ "# 7: laser current, A\n".toList
  ++ "# 8: laset modulation rate, Hz\n".toList
  ++ "# 9: laset modulation duty, %\n".toList

/-- The call `snprintf(buf, n, ...)` rendering `text`: at most `n - 1`
characters and a terminator are stored, the rest of `buf` is untouched. -/
def snprintf (buf : List Char) (n : Nat) (text : List Char) : List Char :=
  text.take (n - 1) ++ NUL :: buf.drop ((text.take (n - 1)).length + 1)

/-- What one iteration of the sweep loop receives from outside. -/
structure StepInput where
  /-- The command thread cleared the run flag since the previous check. -/
  stop : Bool
  /-- The outcome of `gettimeofday` in `get_time`. -/
  clock : Option Timeval
  /-- The outcome of the read after `measure:voltage:all?`. -/
  rd_voltage : Option (List Char)
  /-- The outcome of the read after `measure:current:all?`. -/
  rd_current : Option (List Char)
  /-- The outcome of the read after `read?`. -/
  rd_vm : Option (List Char)

/-- The run flag, the statics of `get_time`, the locals of `worker` that the
sweep loop uses, and the trace so far. -/
structure Sweep where
  run : Int
  time : TimeState
  vac_index : Nat
  pps_voltage : ℚ
  pps_current : ℚ
  vm_voltage : ℚ
  laser_voltage : ℚ
  laser_current : ℚ
  buf : List Char
  trace : List Event

/-- The buffer `buf` after the read that follows `measure:voltage:all?`. -/
def buf_voltage (tmc : Bool) (inp : StepInput) (st : Sweep) : List Char :=
  (dev_read tmc st.buf 100 inp.rd_voltage).2

/-- The buffer `buf` after the read that follows `measure:current:all?`. -/
def buf_current (tmc : Bool) (inp : StepInput) (st : Sweep) : List Char :=
  (dev_read tmc (buf_voltage tmc inp st) 100 inp.rd_current).2

/-- The buffer `buf` after the read that follows `read?`. -/
def buf_vm (tmc : Bool) (inp : StepInput) (st : Sweep) : List Char :=
  (dev_read tmc (buf_current tmc inp st) 100 inp.rd_vm).2

/-- The data line of one iteration: the values of the locals after the three
query/response pairs. -/
def stepRow (conv : Conv) (tmc : Bool) (inp : StepInput) (st : Sweep) : Row :=
  { vac_index := st.vac_index
    vac_time := (get_time st.time inp.clock).1
    pps_voltage :=
      (sscanf_lf_lf conv (cstr (buf_voltage tmc inp st)) st.pps_voltage st.laser_voltage).1
    pps_current :=
      (sscanf_lf_lf conv (cstr (buf_current tmc inp st)) st.pps_current st.laser_current).1
    vm_voltage := atof conv (cstr (buf_vm tmc inp st))
    laser_voltage :=
      (sscanf_lf_lf conv (cstr (buf_voltage tmc inp st)) st.pps_voltage st.laser_voltage).2
    laser_current :=
      (sscanf_lf_lf conv (cstr (buf_current tmc inp st)) st.pps_current st.laser_current).2
    freq := 500
    duty := 50 }

/-- The body of the sweep loop from `dev_print(pps_fd, "voltage %.3lf", ...)`
to `vac_index++`, for the commanded `voltage`. -/
def sweepBody (conv : Conv) (tmc : Bool) (file : List Char) (inp : StepInput)
    (voltage : ℚ) (st : Sweep) : Sweep :=
  { run := st.run
    time := (get_time st.time inp.clock).2
    vac_index := st.vac_index + 1
    pps_voltage := (stepRow conv tmc inp st).pps_voltage
    pps_current := (stepRow conv tmc inp st).pps_current
    vm_voltage := (stepRow conv tmc inp st).vm_voltage
    laser_voltage := (stepRow conv tmc inp st).laser_voltage
    laser_current := (stepRow conv tmc inp st).laser_current
    buf := buf_vm tmc inp st
    trace := st.trace ++
      [ Event.set_voltage voltage,
        Event.usleep,
        Event.command Res.pps "measure:voltage:all?",
        Event.command Res.pps "measure:current:all?",
        Event.command Res.vm "read?",
        Event.row (stepRow conv tmc inp st),
        Event.plot (stepRow conv tmc inp st) file ] }

/-- The run flag as the worker finds it at the top of an iteration: cleared
with `set_run(0)` by the command thread if it did so since the previous
check. -/
def observe (stop : Bool) (st : Sweep) : Sweep :=
  if stop then { st with run := set_run st.run 0 } else st

/-- The call `set_run(0)` made by the worker when the range is exhausted. -/
def finish (st : Sweep) : Sweep :=
  { st with run := set_run st.run 0, trace := st.trace ++ [Event.set_run 0] }

/-- The loop `while(get_run()) ...` of `worker`. `inp i` is what the
iteration with `vac_index = i` receives from outside. -/
def sweepLoop (conv : Conv) (tmc : Bool) (file : List Char) (inp : Nat → StepInput)
    (st : Sweep) : Sweep :=
  if get_run (observe (inp st.vac_index).stop st).run = 0 then
    observe (inp st.vac_index).stop st
  else if (st.vac_index : ℚ) * VOLTAGE_STEP > VOLTAGE_MAX then
    finish (observe (inp st.vac_index).stop st)
  else
    sweepLoop conv tmc file inp
      (sweepBody conv tmc file (inp st.vac_index) ((st.vac_index : ℚ) * VOLTAGE_STEP)
        (observe (inp st.vac_index).stop st))
termination_by 101 - st.vac_index
decreasing_by
  rename_i _ h2
  have h3 : ((st.vac_index : ℚ)) ≤ 100 := by
    unfold VOLTAGE_STEP VOLTAGE_MAX at h2
    linarith
  have h4 : st.vac_index ≤ 100 := by exact_mod_cast h3
  have h5 : (observe (inp st.vac_index).stop st).vac_index = st.vac_index := by
    unfold observe; split <;> rfl
  simp only [sweepBody, h5]
  omega

/-- The commands of the block `// === init pps`. -/
def init_pps : List Event :=
  [ Event.command Res.pps "output 0",
    Event.command Res.pps "instrument:nselect 1",
    Event.command Res.pps "voltage:limit 11V",
    Event.command Res.pps "voltage 0.0",
    Event.command Res.pps "current 0.1",
    Event.command Res.pps "channel:output 1",
    Event.command Res.pps "instrument:nselect 2",
    Event.command Res.pps "voltage:limit 5.5V",
    Event.command Res.pps "voltage 5.0",
    Event.command Res.pps "current 0.15",
    Event.command Res.pps "channel:output 1",
    Event.command Res.pps "instrument:nselect 1" ]

/-- The commands of the block `// === init vm`. -/
def init_vm : List Event :=
  [ Event.command Res.vm "function \"voltage:ac\"",
    Event.command Res.vm "voltage:ac:range:auto on",
    Event.command Res.vm "trigger:source immediate",
    Event.command Res.vm "trigger:delay:auto off",
    Event.command Res.vm "trigger:delay 0",
    Event.command Res.vm "trigger:count 1",
    Event.command Res.vm "sample:count 1" ]

/-- The commands of the block `// === init osc`. -/
def init_osc : List Event :=
  [ Event.command Res.osc "dds:switch 0",
    Event.command Res.osc "dds:type square",
    Event.command Res.osc "dds:freq 500",
    Event.command Res.osc "dds:amp 3.5",
    Event.command Res.osc "dds:offset 1.75",
    Event.command Res.osc "dds:duty 50",
    Event.command Res.osc "dds:wave:mode off",
    Event.command Res.osc "dds:burst:switch off",
    Event.command Res.osc "dds:switch 1" ]

/-- The lines of the block `// === prepare gnuplot`. -/
def prepare_gnuplot : List Event :=
  [ Event.gnuplot "set xrange [0:10]\n",
    Event.gnuplot "set xlabel \"Voltage, V\"\n",
    Event.gnuplot "set ylabel \"Voltage (AC), V\"\n" ]

/-- The commands between the end of the loop and `pclose(gp)`. -/
def switch_off : List Event :=
  [ Event.command Res.pps "output 0",
    Event.command Res.pps "voltage 0",
    Event.command Res.osc "dds:switch 0",
    Event.command Res.osc "dds:offset 0",
    Event.command Res.pps "system:beeper" ]

/-- The code after the label `worker_osc_close`. -/
def worker_osc_close : List Event := []

/-- The code from the label `worker_pps_open`. -/
def worker_pps_open : List Event := usbtmc_close Res.osc ++ worker_osc_close

/-- The code from the label `worker_vm_open`. -/
def worker_vm_open (tmc : Bool) : List Event := dev_close tmc Res.pps ++ worker_pps_open

/-- The code from the label `worker_vac_fopen`. -/
def worker_vac_fopen (tmc : Bool) : List Event := dev_close tmc Res.vm ++ worker_vm_open tmc

/-- The code from the label `worker_gp_popen`: `fclose(vac_fp)` and what
follows. -/
def worker_gp_popen (tmc : Bool) : List Event := Event.closed Res.vac :: worker_vac_fopen tmc

/-- The code that follows the loop: the switch-off commands, `pclose(gp)`, and
the code from the label `worker_gp_popen` reached by falling through. -/
def teardown (tmc : Bool) : List Event :=
  switch_off ++ Event.closed Res.gp :: worker_gp_popen tmc

/-- The globals that `main` sets before it starts the threads. -/
structure Globals where
  run : Int
  dir_str : List Char
  filename_vac : List Char
  experiment_name : List Char

/-- The indeterminate initial contents of the locals of `worker` that are read
before the program writes them. -/
structure Uninit where
  pps_voltage : ℚ
  pps_current : ℚ
  vm_voltage : ℚ
  laser_voltage : ℚ
  laser_current : ℚ
  buf : List Char

/-- What `worker` receives from outside: the values returned by the three
transport opens, whether `fopen` and `popen` return a stream, and the inputs of
the sweep iterations. -/
structure WorkerEnv where
  osc_open : Int
  pps_open : Int
  vm_open : Int
  vac_fopen : Bool
  gp_popen : Bool
  step : Nat → StepInput

/-- The run flag when `worker` returns and the trace of what it did. -/
structure WorkerResult where
  run : Int
  trace : List Event

/-- The trace of `worker` up to and including the three instrument set-ups. -/
def connected : List Event :=
  [Event.opened Res.osc, Event.opened Res.pps, Event.opened Res.vm]
    ++ init_pps ++ init_vm ++ init_osc

/-- The state in which `worker` enters the sweep loop. -/
def sweepStart (g : Globals) (u : Uninit) : Sweep :=
  { run := g.run
    time := TimeState.init
    vac_index := 0
    pps_voltage := u.pps_voltage
    pps_current := u.pps_current
    vm_voltage := u.vm_voltage
    laser_voltage := u.laser_voltage
    laser_current := u.laser_current
    buf := snprintf u.buf 100 ("gnuplot > ".toList ++ g.dir_str ++ "/gnuplot.log 2>&1".toList)
    trace := connected
      ++ [Event.opened Res.vac, Event.header (header g.experiment_name), Event.opened Res.gp]
      ++ prepare_gnuplot }

/-- The function `worker`. -/
def worker (conv : Conv) (tmc : Bool) (g : Globals) (u : Uninit) (env : WorkerEnv) :
    WorkerResult :=
  if env.osc_open = -1 then
    ⟨g.run, [Event.open_failed Res.osc] ++ worker_osc_close⟩
  else if env.pps_open = -1 then
    ⟨g.run, [Event.opened Res.osc, Event.open_failed Res.pps] ++ worker_pps_open⟩
  else if env.vm_open = -1 then
    ⟨g.run, [Event.opened Res.osc, Event.opened Res.pps, Event.open_failed Res.vm]
      ++ worker_vm_open tmc⟩
  else if env.vac_fopen = false then
    ⟨g.run, connected ++ [Event.open_failed Res.vac] ++ worker_vac_fopen tmc⟩
  else if env.gp_popen = false then
    ⟨g.run, connected
      ++ [Event.opened Res.vac, Event.header (header g.experiment_name),
          Event.open_failed Res.gp]
      ++ worker_gp_popen tmc⟩
  else
    ⟨(sweepLoop conv tmc g.filename_vac env.step (sweepStart g u)).run,
      (sweepLoop conv tmc g.filename_vac env.step (sweepStart g u)).trace ++ teardown tmc⟩

/-! ## The entry point -/

/-- What `main` receives from outside: `argc`, `argv[1]`, the rendering of the
start time by the format `%04d-%02d-%02d_%02d-%02d-%02d`, the value returned by
`mkdir`, and what the worker receives. -/
structure MainInput where
  argc : Int
  argv1 : List Char
  stamp : List Char
  mkdir_status : Int
  uninit : Uninit
  env : WorkerEnv

/-- The function `main`: its return value and the trace of the worker it
ran. The result of the worker thread is not collected (`pthread_join` is given
`NULL`), and `ret` is assigned only by the two start-up checks. -/
def main (conv : Conv) (tmc : Bool) (i : MainInput) : Int × List Event :=
  if i.argc < 2 then (-1, [])
  else if i.mkdir_status = -1 then (-2, [])
  else
    (0, (worker conv tmc
      { run := 1
        dir_str := (i.stamp ++ '_' :: i.argv1).take 99
        filename_vac :=
          (((i.stamp ++ '_' :: i.argv1).take 99) ++ "/vac.dat".toList).take 99
        experiment_name := i.argv1 }
      i.uninit i.env).trace)

/-! ## The command thread -/

/-- What the command thread writes to its terminal. -/
inductive Out
  /-- The prompt `"> "`. -/
  | prompt
  /-- The help text. -/
  | help
  /-- The line `# E: Unknown command (text)`. -/
  | unknown (text : List Char)
  /-- The line `# E: Exit`. -/
  | exit_msg
deriving DecidableEq

/-- The conversion `%.*s` of `printf` with precision `prec` on the string `s`:
at most `prec` characters; a negative precision is taken as if omitted. -/
def printf_prec_s (prec : Int) (s : List Char) : List Char :=
  if prec < 0 then s else s.take prec.toNat

/-- The run flag and the output of the command thread. -/
structure Cmd where
  run : Int
  out : List Out
deriving DecidableEq

/-- The `switch(str[0])` of `commander` on the string `str` that `fgets`
stored. -/
def dispatch (str : List Char) (c : Cmd) : Cmd :=
  match str with
  | 'h' :: _ => { c with out := c.out ++ [Out.help] }
  | 'q' :: _ => { c with run := set_run c.run 0 }
  | _ =>
    { c with out := c.out ++ [Out.unknown (printf_prec_s ((str.length : Int) - 1) str)] }

/-- The function `commander` on the successive outcomes of `fgets` (`none` for
`NULL`); it runs until the flag is clear or, blocked in `fgets` after the
prompt with no more input, it is cancelled. -/
def commander (c : Cmd) : List (Option (List Char)) → Cmd
  | [] => if get_run c.run = 0 then c else { c with out := c.out ++ [Out.prompt] }
  | line :: rest =>
    if get_run c.run = 0 then c
    else
      match line with
      | none => { run := set_run c.run 0, out := c.out ++ [Out.prompt, Out.exit_msg] }
      | some str => commander (dispatch str { c with out := c.out ++ [Out.prompt] }) rest

/-! ## The two threads over the shared run flag -/

/-- The two threads that access the run flag. -/
inductive Tid
  | commander
  | worker
deriving DecidableEq

/-- An access to the run flag: a `get_run` with the value it returned, or a
`set_run` with the value it wrote. -/
inductive FlagEvent
  | get (t : Tid) (v : Int)
  | set (t : Tid) (v : Int)
deriving DecidableEq

/-- Where the command thread is: about to call `get_run` in the loop
condition, in `fgets`, or finished. -/
inductive CPc
  | check
  | input
  | finished
deriving DecidableEq

/-- Where the worker is: acquiring its resources, about to call `get_run` in
the loop condition, at the range test, in the rest of the loop body, or past
the loop. -/
inductive WPc
  | start
  | check
  | test
  | body
  | finished
deriving DecidableEq

/-- The shared flag, the position of each thread, the sweep index, and the
history of the accesses to the flag. -/
structure Sys where
  run : Int
  cpc : CPc
  wpc : WPc
  vac_index : Nat
  log : List FlagEvent

/-- A scheduling choice: a step of the command thread (with the outcome of
`fgets` if the step is the read), a step of the worker (with whether its
acquisitions succeed if the step is the start), or the `pthread_cancel` of
`main`. -/
inductive Action
  | commander (line : Option (List Char))
  | worker (acquired : Bool)
  | cancel

/-- A call of `get_run` by thread `t`, recorded in the history. -/
def sysGet (t : Tid) (s : Sys) : Sys :=
  { s with log := s.log ++ [FlagEvent.get t (get_run s.run)] }

/-- A call of `set_run(v)` by thread `t`, recorded in the history. -/
def sysSet (t : Tid) (v : Int) (s : Sys) : Sys :=
  { s with run := set_run s.run v, log := s.log ++ [FlagEvent.set t v] }

/-- One step of the command thread. -/
def stepCommander (line : Option (List Char)) (s : Sys) : Sys :=
  match s.cpc with
  | CPc.check =>
    if get_run s.run = 0 then { sysGet Tid.commander s with cpc := CPc.finished }
    else { sysGet Tid.commander s with cpc := CPc.input }
  | CPc.input =>
    match line with
    | none => { sysSet Tid.commander 0 s with cpc := CPc.finished }
    | some ('q' :: _) => { sysSet Tid.commander 0 s with cpc := CPc.check }
    | some _ => { s with cpc := CPc.check }
  | CPc.finished => s

/-- One step of the worker. -/
def stepWorker (acquired : Bool) (s : Sys) : Sys :=
  match s.wpc with
  | WPc.start => if acquired then { s with wpc := WPc.check } else { s with wpc := WPc.finished }
  | WPc.check =>
    if get_run s.run = 0 then { sysGet Tid.worker s with wpc := WPc.finished }
    else { sysGet Tid.worker s with wpc := WPc.test }
  | WPc.test =>
    if (s.vac_index : ℚ) * VOLTAGE_STEP > VOLTAGE_MAX then
      { sysSet Tid.worker 0 s with wpc := WPc.finished }
    else { s with wpc := WPc.body }
  | WPc.body => { s with vac_index := s.vac_index + 1, wpc := WPc.check }
  | WPc.finished => s

/-- One step of the system. The cancellation takes effect once the worker has
finished, on a command thread blocked in `fgets`. -/
def stepSys (s : Sys) (a : Action) : Sys :=
  match a with
  | Action.commander line => stepCommander line s
  | Action.worker acquired => stepWorker acquired s
  | Action.cancel =>
    if s.wpc = WPc.finished ∧ s.cpc = CPc.input then { s with cpc := CPc.finished } else s

/-- The state in which `main` starts the threads: `run = 1`. -/
def Sys.init : Sys :=
  { run := 1, cpc := CPc.check, wpc := WPc.start, vac_index := 0, log := [] }

/-- The state after a schedule. -/
def runSys (sched : List Action) : Sys := sched.foldl stepSys Sys.init

/-- The value written by the most recent `set_run` of a history, 1 (the value
`main` stores before it starts the threads) if there is none. -/
def lastWrite (log : List FlagEvent) : Int :=
  log.foldl (fun acc e => match e with
    | FlagEvent.get _ _ => acc
    | FlagEvent.set _ v => v) 1

/-! ## Observations used in the statements -/

/-- The lines of a text: each ends at a newline, which is not part of it; a
last line need not be terminated. -/
def lines : List Char → List (List Char)
  | [] => []
  | c :: cs =>
    if c = '\n' then [] :: lines cs
    else
      match lines cs with
      | [] => [[c]]
      | l :: ls => (c :: l) :: ls

/-- Whether the acquisition of a resource succeeds in `env`, as `worker`
tests it. -/
def acquires (env : WorkerEnv) : Res → Bool
  | Res.osc => decide (env.osc_open ≠ -1)
  | Res.pps => decide (env.pps_open ≠ -1)
  | Res.vm => decide (env.vm_open ≠ -1)
  | Res.vac => env.vac_fopen
  | Res.gp => env.gp_popen

/-- The invariant of the shared flag: it holds the last value written, every
recorded read returned the last value written before it, and only 0 has been
written. -/
def FlagInv (run : Int) (log : List FlagEvent) : Prop :=
  run = lastWrite log
  ∧ (∀ (k : Nat) t v, log[k]? = some (FlagEvent.get t v) → v = lastWrite (log.take k))
  ∧ (∀ t v, FlagEvent.set t v ∈ log → v = 0)

/-! ## Example inputs -/

/-- An iteration input with the given `stop` and VM response, a working clock
and fixed PPS responses. -/
def stepWith (stop : Bool) (vm : List Char) : StepInput :=
  { stop := stop
    clock := some ⟨0, 0⟩
    rd_voltage := some "1.5, 5.0".toList
    rd_current := some "0.1, 0.2".toList
    rd_vm := some vm }

/-- Locals that hold zeros and a buffer of 100 blanks. -/
def zeroLocals : Uninit :=
  { pps_voltage := 0, pps_current := 0, vm_voltage := 0, laser_voltage := 0,
    laser_current := 0, buf := List.replicate 100 ' ' }

/-- An environment in which every acquisition succeeds and the command thread
never clears the flag. -/
def envOk : WorkerEnv :=
  { osc_open := 3, pps_open := 0, vm_open := 1, vac_fopen := true, gp_popen := true,
    step := fun _ => stepWith false "7".toList }

/-- An environment in which the oscilloscope transport cannot be opened. -/
def envOscFail : WorkerEnv := { envOk with osc_open := -1 }

/-- An environment in which the plot pipe cannot be opened. -/
def envGpFail : WorkerEnv := { envOk with gp_popen := false }

/-- An environment in which the VM answers `7` in the first iteration and `x`
in the second, and the command thread clears the flag before the third
check of the loop condition. -/
def envTwoSteps : WorkerEnv :=
  { envOk with
    step := fun i => if i = 0 then stepWith false "7".toList
      else if i = 1 then stepWith false "x".toList
      else stepWith true "7".toList }

/-- The globals as `main` leaves them for the experiment name `test1`. -/
def globalsTest1 : Globals :=
  { run := 1
    dir_str := "2019-10-12_15-35-04_test1".toList
    filename_vac := "2019-10-12_15-35-04_test1/vac.dat".toList
    experiment_name := "test1".toList }

/-- An input of `main` for the experiment name `test1` in which the
oscilloscope transport cannot be opened. -/
def mainOscFail : MainInput :=
  { argc := 2, argv1 := "test1".toList, stamp := "2019-10-12_15-35-04".toList,
    mkdir_status := 0, uninit := zeroLocals, env := envOscFail }

/-! ## Theorems -/

set_option maxRecDepth 8000

/-! ### `get_time` -/

theorem latched_get_time_calls (s : TimeState) (pre : List (Option Timeval)) :
    latched (get_time_calls s pre) = (latched s).orElse (fun _ => firstSuccess pre) := by
  induction pre generalizing s with
  | nil => cases h : latched s <;> simp [get_time_calls, firstSuccess, h]
  | cons c cs ih =>
    rw [get_time_calls, ih]
    by_cases hf : s.first = 1
    · cases c <;> simp [get_time, latched, hf, firstSuccess]
    · cases c <;> simp [get_time, latched, hf, firstSuccess]

theorem roundHalfEven_of_abs_lt (q : ℚ) (z : Int) (h : |q - z| < 1 / 2) :
    roundHalfEven q = z := by
  rw [abs_lt] at h
  obtain ⟨h1, h2⟩ := h
  unfold roundHalfEven
  have hf1 : (⌊q⌋ : ℚ) ≤ q := Int.floor_le q
  have hf2 : q < ⌊q⌋ + 1 := Int.lt_floor_add_one q
  split
  · have a : (z : ℚ) < ⌊q⌋ + 1 := by linarith
    have b : (⌊q⌋ : ℚ) < z + 1 := by linarith
    have a1 : z < ⌊q⌋ + 1 := by exact_mod_cast a
    have b1 : ⌊q⌋ < z + 1 := by exact_mod_cast b
    omega
  · rename_i h3
    have h4 : (1 : ℚ) / 2 < q - ⌊q⌋ := by
      rcases lt_or_eq_of_le (not_lt.mp h3) with h5 | h5
      · exact h5
      · exfalso
        have a : (z : ℚ) < ⌊q⌋ + 1 := by linarith
        have b : (⌊q⌋ : ℚ) < z := by linarith
        have a1 : z < ⌊q⌋ + 1 := by exact_mod_cast a
        have b1 : ⌊q⌋ < z := by exact_mod_cast b
        omega
    rw [if_pos h4]
    have a : (z : ℚ) < ⌊q⌋ + 2 := by linarith
    have b : (⌊q⌋ : ℚ) < z := by linarith
    have a1 : z < ⌊q⌋ + 2 := by exact_mod_cast a
    have b1 : ⌊q⌋ < z := by exact_mod_cast b
    omega

theorem roundHalfEven_intCast (z : Int) : roundHalfEven (z : ℚ) = z :=
  roundHalfEven_of_abs_lt _ z (by simp)

theorem abs_roundHalfEven_sub_le (q : ℚ) : |(roundHalfEven q : ℚ) - q| ≤ 1 / 2 := by
  have hf1 : (⌊q⌋ : ℚ) ≤ q := Int.floor_le q
  have hf2 : q < ⌊q⌋ + 1 := Int.lt_floor_add_one q
  unfold roundHalfEven
  rw [abs_le]
  split
  · constructor <;> linarith
  · split
    · push_cast; constructor <;> linarith
    · rename_i h1 h2
      have h3 : q - ⌊q⌋ = 1 / 2 := le_antisymm (not_lt.mp h2) (not_lt.mp h1)
      split
      · constructor <;> linarith
      · push_cast; constructor <;> linarith

theorem log_eq (q : ℚ) (e : Int) (h1 : (2 : ℚ) ^ e ≤ |q|) (h2 : |q| < (2 : ℚ) ^ (e + 1)) :
    Int.log 2 |q| = e := by
  have hpos : 0 < |q| := lt_of_lt_of_le (by positivity) h1
  have a : e ≤ Int.log 2 |q| :=
    (Int.zpow_le_iff_le_log (by norm_num) hpos).mp (by exact_mod_cast h1)
  have b : Int.log 2 |q| < e + 1 :=
    (Int.lt_zpow_iff_log_lt (by norm_num) hpos).mp (by exact_mod_cast h2)
  omega

theorem ulp_pos (q : ℚ) : 0 < ulp q := by
  unfold ulp
  positivity

theorem abs_fl_sub_le (q : ℚ) : |fl q - q| ≤ ulp q / 2 := by
  have hu := ulp_pos q
  have h := abs_roundHalfEven_sub_le (q / ulp q)
  have e : fl q - q = ((roundHalfEven (q / ulp q) : ℚ) - q / ulp q) * ulp q := by
    unfold fl
    field_simp
  rw [e, abs_mul, abs_of_pos hu]
  calc |(roundHalfEven (q / ulp q) : ℚ) - q / ulp q| * ulp q ≤ 1 / 2 * ulp q :=
        mul_le_mul_of_nonneg_right h (le_of_lt hu)
    _ = ulp q / 2 := by ring

theorem ulp_le (q : ℚ) (h : (2 : ℚ) ^ (-1022 : Int) ≤ |q|) : ulp q ≤ |q| / 2 ^ 52 := by
  have hpos : 0 < |q| := lt_of_lt_of_le (by positivity) h
  have h1 : (-1022 : Int) ≤ Int.log 2 |q| :=
    (Int.zpow_le_iff_le_log (by norm_num) hpos).mp (by exact_mod_cast h)
  have h2 : ((2 : ℕ) : ℚ) ^ Int.log 2 |q| ≤ |q| := Int.zpow_log_le_self (by norm_num) hpos
  have hm : max (Int.log 2 |q| - 52) (-1074) = Int.log 2 |q| - 52 := by omega
  unfold ulp
  rw [hm, zpow_sub₀ (by norm_num)]
  have h3 : (2 : ℚ) ^ Int.log 2 |q| ≤ |q| := by exact_mod_cast h2
  have h4 : (2 : ℚ) ^ (52 : Int) = 2 ^ 52 := by norm_cast
  rw [h4]
  exact div_le_div_of_nonneg_right h3 (by positivity)

theorem fl_zero : fl 0 = 0 := by
  unfold fl
  rw [zero_div, show ((0 : ℚ)) = ((0 : Int) : ℚ) by norm_num, roundHalfEven_intCast]
  simp

theorem fl_intCast (n : Int) (h : |n| < 2 ^ 53) : fl (n : ℚ) = n := by
  by_cases h0 : n = 0
  · subst h0
    simpa using fl_zero
  have hq : (1 : ℚ) ≤ |(n : ℚ)| := by
    have : 1 ≤ |n| := Int.one_le_abs h0
    exact_mod_cast this
  have hpos : 0 < |(n : ℚ)| := lt_of_lt_of_le one_pos hq
  have hlo : (0 : Int) ≤ Int.log 2 |(n : ℚ)| :=
    (Int.zpow_le_iff_le_log (by norm_num) hpos).mp (by simpa using hq)
  have hhi : Int.log 2 |(n : ℚ)| < 53 := by
    apply (Int.lt_zpow_iff_log_lt (by norm_num) hpos).mp
    have : |(n : ℚ)| < 2 ^ 53 := by exact_mod_cast h
    have e : (((2 : ℕ) : ℚ)) ^ (53 : Int) = 2 ^ 53 := by norm_cast
    rw [e]
    exact this
  obtain ⟨k, hk⟩ : ∃ k : Nat, Int.log 2 |(n : ℚ)| - 52 = -(k : Int) :=
    ⟨(52 - Int.log 2 |(n : ℚ)|).toNat, by omega⟩
  have hu : ulp (n : ℚ) = ((2 : ℚ) ^ k)⁻¹ := by
    unfold ulp
    have hm : max (Int.log 2 |(n : ℚ)| - 52) (-1074) = -(k : Int) := by omega
    rw [hm, zpow_neg, zpow_natCast]
  have hd : (n : ℚ) / ulp (n : ℚ) = ((n * 2 ^ k : Int) : ℚ) := by
    rw [hu]
    push_cast
    field_simp
  unfold fl
  rw [hd, roundHalfEven_intCast, hu]
  push_cast
  field_simp

theorem fl_example : fl ((2000010 : ℚ) / 1000000) = 4503622145368633 / 2 ^ 51 := by
  have hl : Int.log 2 |(2000010 : ℚ) / 1000000| = 1 := by
    apply log_eq <;> norm_num [abs_of_pos]
  have hu : ulp ((2000010 : ℚ) / 1000000) = (2 : ℚ) ^ (-51 : Int) := by
    unfold ulp; rw [hl]; norm_num
  unfold fl
  rw [hu, roundHalfEven_of_abs_lt _ 4503622145368633]
  · norm_num [zpow_neg]
  · rw [abs_lt]; norm_num [zpow_neg]

theorem get_time_wraps :
    (get_time ⟨0, ⟨-2 ^ 63 + 1, 0⟩⟩ (some ⟨2 ^ 63 - 1, 0⟩)).1 = -2 := by
  have h1 : wrap64 (2 ^ 63 - 1 - (-2 ^ 63 + 1)) = -2 := by decide
  have h2 : wrap64 (0 - 0) = 0 := by decide
  have e : (get_time ⟨0, ⟨-2 ^ 63 + 1, 0⟩⟩ (some ⟨2 ^ 63 - 1, 0⟩)).1
      = fl (fl (fl (fl ((-2 : Int) : ℚ) * 1000000) + fl ((0 : Int) : ℚ)) / 1000000) := by
    simp only [get_time, h1, h2]
    rfl
  have f2 : fl ((-2 : Int) : ℚ) = -2 := by simpa using fl_intCast (-2) (by decide)
  have f0 : fl ((0 : Int) : ℚ) = 0 := by simpa using fl_zero
  have f3 : fl (-2000000 : ℚ) = -2000000 := by simpa using fl_intCast (-2000000) (by decide)
  have f4 : fl (-2 : ℚ) = -2 := by simpa using fl_intCast (-2) (by decide)
  rw [e, f2, f0, show (-2 : ℚ) * 1000000 = -2000000 by norm_num, f3,
    show (-2000000 : ℚ) + 0 = -2000000 by norm_num, f3,
    show (-2000000 : ℚ) / 1000000 = -2 by norm_num, f4]

/-- C10, refuted as stated: with the reference latched at 5 s 10 us, the
call that reads 7 s 20 us does not return ((7 - 5) * 10^6 + (20 - 10)) / 10^6;
it returns the binary64 number 4503622145368633 / 2^51 nearest to it. -/
theorem get_time_not_exact :
    (get_time (get_time_calls TimeState.init [some ⟨5, 10⟩]) (some ⟨7, 20⟩)).1
      = 4503622145368633 / 2 ^ 51
    ∧ (get_time (get_time_calls TimeState.init [some ⟨5, 10⟩]) (some ⟨7, 20⟩)).1
      ≠ ((((7 : Int) - 5 : Int) : ℚ) * 10 ^ 6 + (((20 : Int) - 10 : Int) : ℚ)) / 10 ^ 6 := by
  have hval : (get_time (get_time_calls TimeState.init [some ⟨5, 10⟩]) (some ⟨7, 20⟩)).1
      = 4503622145368633 / 2 ^ 51 := by
    have h1 : wrap64 2 = 2 := by decide
    have h2 : wrap64 10 = 10 := by decide
    have e : (get_time (get_time_calls TimeState.init [some ⟨5, 10⟩]) (some ⟨7, 20⟩)).1
        = fl (fl (fl (fl 2 * 1000000) + fl 10) / 1000000) := by
      simp [get_time, get_time_calls, TimeState.init, h1, h2]
    have f2 : fl (2 : ℚ) = 2 := by simpa using fl_intCast 2 (by decide)
    have f10 : fl (10 : ℚ) = 10 := by simpa using fl_intCast 10 (by decide)
    have f3 : fl (2000000 : ℚ) = 2000000 := by simpa using fl_intCast 2000000 (by decide)
    have f4 : fl (2000010 : ℚ) = 2000010 := by simpa using fl_intCast 2000010 (by decide)
    rw [e, f2, f10, show (2 : ℚ) * 1000000 = 2000000 by norm_num, f3,
      show (2000000 : ℚ) + 10 = 2000010 by norm_num, f4, fl_example]
  refine ⟨hval, ?_⟩
  rw [hval]
  norm_num

/-- C10, amended. For every sequence `pre` of earlier clock outcomes: the
statics hold as reference the first successful read of `pre`; a successful
read with no reference latched returns 0 and latches its instant; a
successful read `t` with the reference `t0` latched keeps `t0` and returns the
offset as computed in `double`: the binary64 evaluation of
`(dsec * 1e6 + dusec) / 1e6` with the differences taken in 64-bit integers,
which for microsecond fields in `0 .. 10^6 - 1` and seconds less than `2^33`
apart is the binary64 number nearest to
((sec - sec0) * 10^6 + (usec - usec0)) / 10^6, within a relative error of
`2^-53` of it; a failed read returns -1 when no reference is latched and -2
when one is, and leaves the statics as they were. -/
theorem get_time_sequence (pre : List (Option Timeval)) :
    latched (get_time_calls TimeState.init pre) = firstSuccess pre
    ∧ (∀ t, firstSuccess pre = none →
        (get_time (get_time_calls TimeState.init pre) (some t)).1 = 0
        ∧ latched (get_time (get_time_calls TimeState.init pre) (some t)).2 = some t)
    ∧ (∀ t t0, firstSuccess pre = some t0 →
        (get_time (get_time_calls TimeState.init pre) (some t)).1
          = fl (fl (fl (fl (wrap64 (t.tv_sec - t0.tv_sec) : Int) * 10 ^ 6)
              + fl (wrap64 (t.tv_usec - t0.tv_usec) : Int)) / 10 ^ 6)
        ∧ latched (get_time (get_time_calls TimeState.init pre) (some t)).2 = some t0)
    ∧ (∀ t t0, firstSuccess pre = some t0 →
        0 ≤ t.tv_usec → t.tv_usec < 10 ^ 6 → 0 ≤ t0.tv_usec → t0.tv_usec < 10 ^ 6 →
        |t.tv_sec - t0.tv_sec| < 2 ^ 33 →
        (get_time (get_time_calls TimeState.init pre) (some t)).1
          = fl ((((t.tv_sec - t0.tv_sec : Int) : ℚ) * 10 ^ 6
              + ((t.tv_usec - t0.tv_usec : Int) : ℚ)) / 10 ^ 6)
        ∧ |(get_time (get_time_calls TimeState.init pre) (some t)).1
            - (((t.tv_sec - t0.tv_sec : Int) : ℚ) * 10 ^ 6
              + ((t.tv_usec - t0.tv_usec : Int) : ℚ)) / 10 ^ 6|
          ≤ |(((t.tv_sec - t0.tv_sec : Int) : ℚ) * 10 ^ 6
              + ((t.tv_usec - t0.tv_usec : Int) : ℚ)) / 10 ^ 6| / 2 ^ 53)
    ∧ (firstSuccess pre = none →
        (get_time (get_time_calls TimeState.init pre) none).1 = -1)
    ∧ (firstSuccess pre ≠ none →
        (get_time (get_time_calls TimeState.init pre) none).1 = -2)
    ∧ (get_time (get_time_calls TimeState.init pre) none).2
        = get_time_calls TimeState.init pre := by
  have hl : latched (get_time_calls TimeState.init pre) = firstSuccess pre := by
    rw [latched_get_time_calls]; simp [latched, TimeState.init]
  generalize get_time_calls TimeState.init pre = s at hl ⊢
  have hgen : ∀ t t0, firstSuccess pre = some t0 →
      (get_time s (some t)).1
        = fl (fl (fl (fl (wrap64 (t.tv_sec - t0.tv_sec) : Int) * 10 ^ 6)
            + fl (wrap64 (t.tv_usec - t0.tv_usec) : Int)) / 10 ^ 6)
      ∧ latched (get_time s (some t)).2 = some t0 := by
    intro t t0 h0
    rw [h0] at hl
    have hf : ¬ s.first = 1 := by
      intro he
      simp [latched, he] at hl
    have ht : s.t_first = t0 := by
      simpa [latched, hf] using hl
    simp [get_time, hf, latched, ht]
    norm_num
  refine ⟨hl, ?_, hgen, ?_, ?_, ?_, ?_⟩
  · intro t h0
    rw [h0] at hl
    have hf : s.first = 1 := by
      by_contra hne
      simp [latched, hne] at hl
    simp [get_time, hf, latched]
  · intro t t0 h0 hu1 hu2 hu3 hu4 hsec
    rw [(hgen t t0 h0).1]
    have hsec' := abs_lt.mp hsec
    have hw1 : wrap64 (t.tv_sec - t0.tv_sec) = t.tv_sec - t0.tv_sec := by
      unfold wrap64; omega
    have hw2 : wrap64 (t.tv_usec - t0.tv_usec) = t.tv_usec - t0.tv_usec := by
      unfold wrap64; omega
    rw [hw1, hw2]
    have b1 : |t.tv_sec - t0.tv_sec| < 2 ^ 53 := by
      rw [abs_lt]; omega
    have b2 : |(t.tv_sec - t0.tv_sec) * 10 ^ 6| < 2 ^ 53 := by
      rw [abs_lt]; omega
    have b3 : |t.tv_usec - t0.tv_usec| < 2 ^ 53 := by
      rw [abs_lt]; omega
    have b4 : |(t.tv_sec - t0.tv_sec) * 10 ^ 6 + (t.tv_usec - t0.tv_usec)| < 2 ^ 53 := by
      rw [abs_lt]; omega
    rw [fl_intCast _ b1]
    have e2 : ((t.tv_sec - t0.tv_sec : Int) : ℚ) * 10 ^ 6
        = (((t.tv_sec - t0.tv_sec) * 10 ^ 6 : Int) : ℚ) := by push_cast; ring
    rw [e2, fl_intCast _ b2, fl_intCast _ b3]
    have e3 : ((((t.tv_sec - t0.tv_sec) * 10 ^ 6 : Int) : ℚ)) + ((t.tv_usec - t0.tv_usec : Int) : ℚ)
        = ((((t.tv_sec - t0.tv_sec) * 10 ^ 6 + (t.tv_usec - t0.tv_usec) : Int)) : ℚ) := by
      push_cast; ring
    rw [e3, fl_intCast _ b4]
    refine ⟨rfl, ?_⟩
    generalize hN : (t.tv_sec - t0.tv_sec) * 10 ^ 6 + (t.tv_usec - t0.tv_usec) = N
    by_cases hz : N = 0
    · subst hz
      simp [fl_zero]
    · have hN1 : (1 : ℚ) ≤ |(N : ℚ)| := by
        have : 1 ≤ |N| := Int.one_le_abs hz
        exact_mod_cast this
      have hx : (2 : ℚ) ^ (-1022 : Int) ≤ |(N : ℚ) / 10 ^ 6| := by
        rw [abs_div, abs_of_pos (by positivity : (0 : ℚ) < 10 ^ 6)]
        have h20 : (2 : ℚ) ^ (-1022 : Int) ≤ 1 / 10 ^ 6 := by
          rw [zpow_neg, ← one_div]
          apply one_div_le_one_div_of_le (by positivity)
          calc (10 : ℚ) ^ 6 ≤ 2 ^ 20 := by norm_num
            _ = 2 ^ (20 : Int) := by norm_cast
            _ ≤ 2 ^ (1022 : Int) := zpow_le_zpow_right₀ (by norm_num) (by norm_num)
        calc (2 : ℚ) ^ (-1022 : Int) ≤ 1 / 10 ^ 6 := h20
          _ ≤ |(N : ℚ)| / 10 ^ 6 := div_le_div_of_nonneg_right hN1 (by positivity)
      calc |fl ((N : ℚ) / 10 ^ 6) - (N : ℚ) / 10 ^ 6|
          ≤ ulp ((N : ℚ) / 10 ^ 6) / 2 := abs_fl_sub_le _
        _ ≤ (|(N : ℚ) / 10 ^ 6| / 2 ^ 52) / 2 :=
            div_le_div_of_nonneg_right (ulp_le _ hx) (by norm_num)
        _ = |(N : ℚ) / 10 ^ 6| / 2 ^ 53 := by ring
  · intro h0
    rw [h0] at hl
    have hf : s.first = 1 := by
      by_contra hne
      simp [latched, hne] at hl
    simp [get_time, hf]
  · intro h0
    have hf : ¬ s.first = 1 := by
      intro he
      apply h0
      rw [← hl]
      simp [latched, he]
    simp [get_time, hf]
  · by_cases hf : s.first = 1 <;> simp [get_time, hf]

/-- C10, an instance of the amended claim: after a failed read and a
successful one at 5 s 10 us, a read at 7 s 20 us returns the binary64 number
nearest to 2.00001, which is 4503622145368633 / 2^51, and a failed read
returns -2. -/
theorem get_time_sequence_witness :
    (get_time (get_time_calls TimeState.init [none, some ⟨5, 10⟩]) (some ⟨7, 20⟩)).1
      = 4503622145368633 / 2 ^ 51
    ∧ (get_time (get_time_calls TimeState.init [none, some ⟨5, 10⟩]) none).1 = -2 := by
  have h := ((get_time_sequence [none, some ⟨5, 10⟩]).2.2.2.1 ⟨7, 20⟩ ⟨5, 10⟩ rfl
      (by decide) (by decide) (by decide) (by decide) (by decide)).1
  refine ⟨?_, (get_time_sequence [none, some ⟨5, 10⟩]).2.2.2.2.2.1 (by decide)⟩
  rw [h, ← fl_example]
  norm_num

/-! ### Transport reads -/

theorem gpib_read_terminated (buf bytes : List Char) (buf_length : Nat)
    (hb : buf.length = buf_length) (hn : bytes.length < buf_length) :
    (gpib_read buf buf_length (some bytes)).1 = bytes.length
    ∧ (gpib_read buf buf_length (some bytes)).2[bytes.length]? = some NUL
    ∧ (gpib_read buf buf_length (some bytes)).2.take bytes.length = bytes := by
  have hm : min bytes.length buf_length = bytes.length := by omega
  simp only [gpib_read, hm, hn, if_true, List.take_length]
  refine ⟨trivial, ?_, ?_⟩
  · rw [List.getElem?_set_self]
    simp
    omega
  · rw [List.set_take]
    simp only [List.take_left]
    exact List.set_eq_of_length_le (le_refl _)

theorem usbtmc_read_keeps (buf bytes : List Char) (buf_length : Nat)
    (hn : bytes.length < buf_length) :
    (usbtmc_read buf buf_length (some bytes)).2[bytes.length]? = buf[bytes.length]? := by
  have hm : min bytes.length buf_length = bytes.length := by omega
  simp only [usbtmc_read, hm, List.take_length]
  rw [List.getElem?_append_right (le_refl _)]
  simp

/-- C6, at the failing input: a successful `usbtmc_read` of the 3 bytes `1.5`
into a buffer of capacity 100 that holds 100 characters `x` returns 3 and
leaves `buf[3] = 'x'`, not 0, so the string in the buffer is `1.5` followed by
97 characters `x`; `gpib_read` on the same input stores the terminator at
`buf[3]` and the string in the buffer is `1.5`. -/
theorem usbtmc_read_not_terminated :
    usbtmc_read (List.replicate 100 'x') 100 (some "1.5".toList)
      = (3, "1.5".toList ++ List.replicate 97 'x')
    ∧ (usbtmc_read (List.replicate 100 'x') 100 (some "1.5".toList)).2[3]? = some 'x'
    ∧ cstr (usbtmc_read (List.replicate 100 'x') 100 (some "1.5".toList)).2
        = "1.5".toList ++ List.replicate 97 'x'
    ∧ (gpib_read (List.replicate 100 'x') 100 (some "1.5".toList)).2[3]? = some NUL
    ∧ cstr (gpib_read (List.replicate 100 'x') 100 (some "1.5".toList)).2 = "1.5".toList := by
  decide

/-! ### The command thread -/

theorem dispatch_unknown (str : List Char) (c : Cmd) (hne : str ≠ [])
    (hh : str.head? ≠ some 'h') (hq : str.head? ≠ some 'q') :
    dispatch str c = { c with out := c.out ++ [Out.unknown str.dropLast] } := by
  have e : dispatch str c = { c with out := c.out ++
      [Out.unknown (printf_prec_s ((str.length : Int) - 1) str)] } := by
    unfold dispatch
    split
    · simp at hh
    · simp at hq
    · rfl
  rw [e]
  have hl : 0 < str.length := List.length_pos.mpr hne
  have h1 : ¬ ((str.length : Int) - 1 < 0) := by omega
  have h2 : ((str.length : Int) - 1).toNat = str.length - 1 := by omega
  simp [printf_prec_s, h1, h2, List.dropLast_eq_take]

theorem dispatch_unknown_newline (body : List Char) (c : Cmd)
    (hh : (body ++ ['\n']).head? ≠ some 'h') (hq : (body ++ ['\n']).head? ≠ some 'q') :
    dispatch (body ++ ['\n']) c = { c with out := c.out ++ [Out.unknown body] } := by
  rw [dispatch_unknown _ c (by simp) hh hq]
  simp

/-- C7, at the failing input: for the line `abc`, obtained at end of input
without a newline, the text between the parentheses of the diagnostic is `ab`,
not `abc`; the run flag is unchanged. For the line `abc` followed by a newline
the text is `abc`. -/
theorem dispatch_drops_last_char :
    dispatch "abc".toList ⟨1, []⟩ = ⟨1, [Out.unknown "ab".toList]⟩
    ∧ dispatch "abc\n".toList ⟨1, []⟩ = ⟨1, [Out.unknown "abc".toList]⟩
    ∧ commander ⟨1, []⟩ [some "abc".toList, none]
        = ⟨0, [Out.prompt, Out.unknown "ab".toList, Out.prompt, Out.exit_msg]⟩ := by
  decide

/-! ### The header of the record file -/

theorem lines_append_newline (pre rest : List Char) (h : '\n' ∉ pre) :
    lines (pre ++ '\n' :: rest) = pre :: lines rest := by
  induction pre with
  | nil => simp [lines]
  | cons c pre ih =>
    have hc : c ≠ '\n' := fun e => h (by simp [e])
    have hp : '\n' ∉ pre := fun e => h (by simp [e])
    simp [lines, hc, ih hp]

theorem header_lines (name : List Char) (h : '\n' ∉ name) :
    lines (header name) =
      [ "# Dependence of alternative voltage on voltage using resistive divider".toList,
        "# Experiment name \"".toList ++ name ++ "\"".toList,
        "# 1: index".toList,
        "# 2: time, s".toList,
        "# 3: pps voltage, V".toList,
        "# 4: pps current, A".toList,
        "# 5: vm current, A".toList,
        "# 6: laser voltage, V".toList,
        "# 7: laser current, A".toList,
        "# 8: laset modulation rate, Hz".toList,
        "# 9: laset modulation duty, %".toList ] := by
  have e : header name =
      "# Dependence of alternative voltage on voltage using resistive divider".toList ++ '\n' ::
      (("# Experiment name \"".toList ++ name ++ "\"".toList) ++ '\n' ::
      ("# 1: index".toList ++ '\n' ::
      ("# 2: time, s".toList ++ '\n' ::
      ("# 3: pps voltage, V".toList ++ '\n' ::
      ("# 4: pps current, A".toList ++ '\n' ::
      ("# 5: vm current, A".toList ++ '\n' ::
      ("# 6: laser voltage, V".toList ++ '\n' ::
      ("# 7: laser current, A".toList ++ '\n' ::
      ("# 8: laset modulation rate, Hz".toList ++ '\n' ::
      ("# 9: laset modulation duty, %".toList ++ '\n' :: [])))))))))) := by
    unfold header
    simp only [List.append_assoc]
    rfl
  rw [e]
  rw [lines_append_newline _ _ (by decide)]
  rw [lines_append_newline _ _ (by simp [h])]
  repeat rw [lines_append_newline _ _ (by decide)]
  simp [lines]

/-- C5, refuted as stated: for the experiment name `test1` the header has 11
comment lines, not 9. -/
theorem header_test1_not_nine :
    (lines (header "test1".toList)).length = 11
    ∧ (lines (header "test1".toList)).all (fun l => l.head? == some '#') = true
    ∧ (lines (header "test1".toList)).length ≠ 9 := by
  decide

/-- C5, amended: for every experiment name that contains no newline, the
header block consists of exactly 11 lines, each starting with `#`: a title
line, the experiment-name line and the nine column lines. -/
theorem header_eleven_comment_lines (name : List Char) (h : '\n' ∉ name) :
    (lines (header name)).length = 11
    ∧ ∀ l ∈ lines (header name), l.head? = some '#' := by
  rw [header_lines name h]
  refine ⟨rfl, ?_⟩
  intro l hl
  simp only [List.mem_cons, List.mem_singleton, List.not_mem_nil, or_false] at hl
  rcases hl with hl | hl | hl | hl | hl | hl | hl | hl | hl | hl | hl <;> subst hl <;> rfl

/-- C5, an instance of the amended claim for the experiment name `test1`. -/
theorem header_eleven_comment_lines_witness :
    '\n' ∉ "test1".toList
    ∧ (lines (header "test1".toList)).length = 11
    ∧ ∀ l ∈ lines (header "test1".toList), l.head? = some '#' :=
  ⟨by decide, header_eleven_comment_lines "test1".toList (by decide)⟩

/-! ### Staged acquisition and rollback -/

/-- C1. If the acquisitions of the first `k` stages succeed and the
acquisition of stage `k + 1` fails (`k = 0, ..., 4`, in the order oscilloscope,
PPS, VM, record file, plot pipe), then the resources released are exactly those
of the first `k` stages, each once, in reverse order of acquisition; the
resources acquired are exactly those of the first `k` stages and no
acquisition is attempted beyond stage `k + 1`; and no sweep step is executed:
no voltage is commanded, no data line is written and the worker does not touch
the run flag. -/
theorem worker_rollback (conv : Conv) (tmc : Bool) (g : Globals) (u : Uninit)
    (env : WorkerEnv) (k : Nat) (hk : k < 5)
    (hok : ∀ r ∈ stages.take k, acquires env r = true)
    (hfail : ∀ r, stages[k]? = some r → acquires env r = false) :
    closesOf (worker conv tmc g u env).trace = (stages.take k).reverse
    ∧ opensOf (worker conv tmc g u env).trace = stages.take k
    ∧ attemptsOf (worker conv tmc g u env).trace = stages.take (k + 1)
    ∧ voltagesOf (worker conv tmc g u env).trace = []
    ∧ rowsOf (worker conv tmc g u env).trace = []
    ∧ setRunsOf (worker conv tmc g u env).trace = []
    ∧ (worker conv tmc g u env).run = g.run := by
  interval_cases k
  · have h1 : env.osc_open = -1 := by simpa [stages, acquires] using hfail
    simp [worker, h1, worker_osc_close, closesOf, opensOf, attemptsOf, voltagesOf, rowsOf,
      setRunsOf, stages]
  · have h1 : ¬ env.osc_open = -1 := by simpa [stages, acquires] using hok
    have h2 : env.pps_open = -1 := by simpa [stages, acquires] using hfail
    simp [worker, h1, h2, worker_osc_close, worker_pps_open, usbtmc_close, closesOf, opensOf,
      attemptsOf, voltagesOf, rowsOf, setRunsOf, stages]
  · have h1 : ¬ env.osc_open = -1 ∧ ¬ env.pps_open = -1 := by
      simpa [stages, acquires] using hok
    have h3 : env.vm_open = -1 := by simpa [stages, acquires] using hfail
    cases tmc <;>
    simp [worker, h1, h3, worker_osc_close, worker_pps_open, worker_vm_open, usbtmc_close,
      gpib_close, dev_close, closesOf, opensOf, attemptsOf, voltagesOf, rowsOf, setRunsOf,
      stages]
  · have h1 : ¬ env.osc_open = -1 ∧ ¬ env.pps_open = -1 ∧ ¬ env.vm_open = -1 := by
      simpa [stages, acquires] using hok
    have h4 : env.vac_fopen = false := by simpa [stages, acquires] using hfail
    cases tmc <;>
    simp [worker, h1, h4, worker_osc_close, worker_pps_open, worker_vm_open, worker_vac_fopen,
      usbtmc_close, gpib_close, dev_close, closesOf, opensOf, attemptsOf, voltagesOf, rowsOf,
      setRunsOf, stages, connected, init_pps, init_vm, init_osc]
  · have h1 : ¬ env.osc_open = -1 ∧ ¬ env.pps_open = -1 ∧ ¬ env.vm_open = -1
        ∧ env.vac_fopen = true := by
      simpa [stages, acquires] using hok
    have h5 : env.gp_popen = false := by simpa [stages, acquires] using hfail
    cases tmc <;>
    simp [worker, h1, h5, worker_osc_close, worker_pps_open, worker_vm_open, worker_vac_fopen,
      worker_gp_popen, usbtmc_close, gpib_close, dev_close, closesOf, opensOf, attemptsOf,
      voltagesOf, rowsOf, setRunsOf, stages, connected, init_pps, init_vm, init_osc]

/-- C1, an instance: when `popen` fails after four successful acquisitions, the
record file, the VM, the PPS and the oscilloscope are released in that order. -/
theorem worker_rollback_witness :
    closesOf (worker decConv false globalsTest1 zeroLocals envGpFail).trace
      = [Res.vac, Res.vm, Res.pps, Res.osc]
    ∧ opensOf (worker decConv false globalsTest1 zeroLocals envGpFail).trace
      = [Res.osc, Res.pps, Res.vm, Res.vac] := by
  have h := worker_rollback decConv false globalsTest1 zeroLocals envGpFail 4 (by decide)
    (by decide) (by decide)
  exact ⟨h.1, h.2.1⟩

/-! ### The exit code -/

/-- C4, refuted as stated: with an argument and a created directory, when the
oscilloscope transport cannot be opened (the only acquisition attempted, and
it fails), `main` returns 0, the value it returns on normal completion. -/
theorem main_returns_zero_on_osc_failure :
    (main decConv false mainOscFail).1 = 0
    ∧ (main decConv false mainOscFail).2 = [Event.open_failed Res.osc] := by
  decide

/-- C4, amended: the value returned by `main` is -1 when the argument is
missing, -2 when the directory cannot be created, and 0 in every other run,
whatever happens in the worker; in particular, with an argument and a created
directory, when the oscilloscope transport open fails `main` returns 0 and the
worker attempts nothing else. -/
theorem main_exit_code (conv : Conv) (tmc : Bool) (i : MainInput) :
    (main conv tmc i).1
      = (if i.argc < 2 then -1 else if i.mkdir_status = -1 then -2 else 0)
    ∧ (2 ≤ i.argc → i.mkdir_status ≠ -1 → i.env.osc_open = -1 →
        (main conv tmc i).1 = 0
        ∧ (main conv tmc i).2 = [Event.open_failed Res.osc]) := by
  constructor
  · unfold main
    split
    · rfl
    · split <;> rfl
  · intro h1 h2 h3
    have h1n : ¬ i.argc < 2 := by omega
    simp [main, h1n, h2, worker, h3, worker_osc_close]

/-- C4, an instance of the amended claim at the input `mainOscFail`. -/
theorem main_exit_code_witness :
    (main decConv false mainOscFail).1 = 0
    ∧ (main decConv false mainOscFail).2 = [Event.open_failed Res.osc] :=
  (main_exit_code decConv false mainOscFail).2 (by decide) (by decide) (by decide)

/-! ### The sweep loop -/

theorem exceeds_iff (i : Nat) : ((i : ℚ) * VOLTAGE_STEP > VOLTAGE_MAX) ↔ 100 < i := by
  unfold VOLTAGE_STEP VOLTAGE_MAX
  constructor
  · intro h
    have h1 : (100 : ℚ) < (i : ℚ) := by linarith
    exact_mod_cast h1
  · intro h
    have h1 : (100 : ℚ) < (i : ℚ) := by exact_mod_cast h
    show (10 : ℚ) < (i : ℚ) * (1 / 10)
    linarith

theorem observe_vac_index (b : Bool) (st : Sweep) : (observe b st).vac_index = st.vac_index := by
  unfold observe; split <;> rfl

theorem observe_trace (b : Bool) (st : Sweep) : (observe b st).trace = st.trace := by
  unfold observe; split <;> rfl

theorem observe_false (st : Sweep) : observe false st = st := rfl

theorem sweepLoop_spec (conv : Conv) (tmc : Bool) (file : List Char) (inp : Nat → StepInput)
    (st : Sweep) :
    ∃ n, (n = 0 ∨ st.vac_index + n ≤ 101)
      ∧ (sweepLoop conv tmc file inp st).vac_index = st.vac_index + n
      ∧ voltagesOf (sweepLoop conv tmc file inp st).trace
          = voltagesOf st.trace
            ++ (List.range' st.vac_index n).map (fun i : Nat => (i : ℚ) * VOLTAGE_STEP)
      ∧ (rowsOf (sweepLoop conv tmc file inp st).trace).map Row.vac_index
          = (rowsOf st.trace).map Row.vac_index ++ List.range' st.vac_index n
      ∧ closesOf (sweepLoop conv tmc file inp st).trace = closesOf st.trace
      ∧ opensOf (sweepLoop conv tmc file inp st).trace = opensOf st.trace
      ∧ attemptsOf (sweepLoop conv tmc file inp st).trace = attemptsOf st.trace
      ∧ ((∀ i, (inp i).stop = false) → st.run ≠ 0 → st.vac_index ≤ 101 →
          st.vac_index + n = 101
          ∧ (sweepLoop conv tmc file inp st).run = 0
          ∧ ∃ t, (sweepLoop conv tmc file inp st).trace = t ++ [Event.set_run 0]
              ∧ setRunsOf t = setRunsOf st.trace) := by
  induction st using sweepLoop.induct conv tmc file inp with
  | case1 st h =>
    refine ⟨0, Or.inl rfl, ?_⟩
    rw [sweepLoop, if_pos h]
    simp only [observe_vac_index, observe_trace, List.range'_zero, List.map_nil,
      List.append_nil, Nat.add_zero, true_and]
    intro hs hr _
    rw [hs, observe_false] at h
    exact absurd h hr
  | case2 st h1 h2 =>
    refine ⟨0, Or.inl rfl, ?_⟩
    rw [sweepLoop, if_neg h1, if_pos h2]
    have hi : 100 < st.vac_index := (exceeds_iff _).mp h2
    simp only [finish, observe_vac_index, observe_trace, List.range'_zero, List.map_nil,
      List.append_nil, Nat.add_zero, true_and, set_run]
    refine ⟨by simp [voltagesOf], by simp [rowsOf], by simp [closesOf], by simp [opensOf],
      by simp [attemptsOf], ?_⟩
    intro _ _ hle
    exact ⟨by omega, ⟨st.trace, rfl, rfl⟩⟩
  | case3 st h1 h2 ih =>
    obtain ⟨n, hn, hidx, hv, hr, hc, ho, ha, hdone⟩ := ih
    have hi : st.vac_index ≤ 100 := by
      by_contra hc
      exact h2 ((exceeds_iff _).mpr (by omega))
    refine ⟨n + 1, Or.inr ?_, ?_⟩
    · simp only [sweepBody, observe_vac_index] at hn
      omega
    rw [sweepLoop, if_neg h1, if_neg h2]
    simp only [sweepBody, observe_vac_index, observe_trace] at hidx hv hr hc ho ha hdone ⊢
    refine ⟨by rw [hidx]; omega, ?_, ?_, ?_, ?_, ?_, ?_⟩
    · rw [hv]; simp [voltagesOf, List.range'_succ]
    · rw [hr]; simp [rowsOf, List.range'_succ, stepRow, observe_vac_index]
    · rw [hc]; simp [closesOf]
    · rw [ho]; simp [opensOf]
    · rw [ha]; simp [attemptsOf]
    · intro hs hrun hle
      have hrun1 : ¬ (observe (inp st.vac_index).stop st).run = 0 := by
        rw [hs, observe_false]; exact hrun
      obtain ⟨e1, e2, t, e3, e4⟩ := hdone hs hrun1 (by omega)
      refine ⟨by omega, e2, t, e3, ?_⟩
      rw [e4]; simp [setRunsOf]

theorem voltagesOf_sweepStart (g : Globals) (u : Uninit) :
    voltagesOf (sweepStart g u).trace = [] := by
  simp [voltagesOf, sweepStart, connected, init_pps, init_vm, init_osc, prepare_gnuplot]

theorem rowsOf_sweepStart (g : Globals) (u : Uninit) :
    rowsOf (sweepStart g u).trace = [] := by
  simp [rowsOf, sweepStart, connected, init_pps, init_vm, init_osc, prepare_gnuplot]

theorem setRunsOf_sweepStart (g : Globals) (u : Uninit) :
    setRunsOf (sweepStart g u).trace = [] := by
  simp [setRunsOf, sweepStart, connected, init_pps, init_vm, init_osc, prepare_gnuplot]

theorem worker_acquired (conv : Conv) (tmc : Bool) (g : Globals) (u : Uninit)
    (env : WorkerEnv) (hacq : ∀ r ∈ stages, acquires env r = true) :
    worker conv tmc g u env =
      ⟨(sweepLoop conv tmc g.filename_vac env.step (sweepStart g u)).run,
        (sweepLoop conv tmc g.filename_vac env.step (sweepStart g u)).trace ++ teardown tmc⟩ := by
  have h : ¬ env.osc_open = -1 ∧ ¬ env.pps_open = -1 ∧ ¬ env.vm_open = -1
      ∧ env.vac_fopen = true ∧ env.gp_popen = true := by
    simpa [stages, acquires] using hacq
  simp [worker, h]

theorem voltagesOf_teardown (tmc : Bool) :
    voltagesOf (teardown tmc) = [] := by
  cases tmc <;>
  simp [voltagesOf, teardown, switch_off, worker_gp_popen, worker_vac_fopen, worker_vm_open,
    worker_pps_open, worker_osc_close, dev_close, gpib_close, usbtmc_close]

theorem rowsOf_teardown (tmc : Bool) :
    rowsOf (teardown tmc) = [] := by
  cases tmc <;>
  simp [rowsOf, teardown, switch_off, worker_gp_popen, worker_vac_fopen, worker_vm_open,
    worker_pps_open, worker_osc_close, dev_close, gpib_close, usbtmc_close]

theorem setRunsOf_teardown (tmc : Bool) :
    setRunsOf (teardown tmc) = [] := by
  cases tmc <;>
  simp [setRunsOf, teardown, switch_off, worker_gp_popen, worker_vac_fopen, worker_vm_open,
    worker_pps_open, worker_osc_close, dev_close, gpib_close, usbtmc_close]

theorem voltagesOf_append (a b : List Event) :
    voltagesOf (a ++ b) = voltagesOf a ++ voltagesOf b := by
  simp [voltagesOf]

theorem rowsOf_append (a b : List Event) : rowsOf (a ++ b) = rowsOf a ++ rowsOf b := by
  simp [rowsOf]

theorem setRunsOf_append (a b : List Event) :
    setRunsOf (a ++ b) = setRunsOf a ++ setRunsOf b := by
  simp [setRunsOf]

/-- C2. With `VOLTAGE_STEP = 1/10` and `VOLTAGE_MAX = 10`, when all five
acquisitions succeed, the flag is set as `main` sets it and the command thread
never clears it: the worker writes exactly 101 data lines, with the indices 0,
1, ..., 100 in this order; it commands the voltages `i * VOLTAGE_STEP` for
`i = 0, ..., 100`, the last one being 10; the loop ends with `vac_index = 101`
by the call `set_run(0)`, the only one the worker makes, after which only the
teardown follows (no further data line), and the flag is 0 when the worker
returns; and 100 is the least `N` with `(N + 1) * VOLTAGE_STEP > VOLTAGE_MAX`. -/
theorem completed_sweep (conv : Conv) (tmc : Bool) (g : Globals) (u : Uninit)
    (env : WorkerEnv) (hrun : g.run = 1)
    (hacq : ∀ r ∈ stages, acquires env r = true)
    (hstop : ∀ i, (env.step i).stop = false) :
    (rowsOf (worker conv tmc g u env).trace).map Row.vac_index = List.range 101
    ∧ (rowsOf (worker conv tmc g u env).trace).length = 101
    ∧ voltagesOf (worker conv tmc g u env).trace
        = (List.range 101).map (fun i : Nat => (i : ℚ) * VOLTAGE_STEP)
    ∧ (voltagesOf (worker conv tmc g u env).trace).getLast? = some 10
    ∧ (sweepLoop conv tmc g.filename_vac env.step (sweepStart g u)).vac_index = 101
    ∧ (worker conv tmc g u env).run = 0
    ∧ (∃ t, (worker conv tmc g u env).trace
          = t ++ Event.set_run 0 :: teardown tmc
        ∧ setRunsOf t = []
        ∧ rowsOf t = rowsOf (worker conv tmc g u env).trace)
    ∧ (∀ N : Nat, ((N : ℚ) + 1) * VOLTAGE_STEP > VOLTAGE_MAX ↔ 100 ≤ N) := by
  obtain ⟨n, -, hidx, hv, hr, -, -, -, hdone⟩ :=
    sweepLoop_spec conv tmc g.filename_vac env.step (sweepStart g u)
  have hrun0 : (sweepStart g u).run ≠ 0 := by
    show g.run ≠ 0
    rw [hrun]; decide
  obtain ⟨hn, hfin, t, ht, hts⟩ := hdone hstop hrun0 (by show 0 ≤ 101; omega)
  have hn101 : n = 101 := by
    have : (sweepStart g u).vac_index = 0 := rfl
    omega
  subst hn101
  rw [voltagesOf_sweepStart] at hv
  rw [rowsOf_sweepStart] at hr
  rw [setRunsOf_sweepStart] at hts
  have hz : (sweepStart g u).vac_index = 0 := rfl
  rw [hz] at hv hr hidx
  simp only [List.nil_append, List.map_nil, ← List.range_eq_range'] at hv hr
  have hw := worker_acquired conv tmc g u env hacq
  have hrows : rowsOf (worker conv tmc g u env).trace
      = rowsOf (sweepLoop conv tmc g.filename_vac env.step (sweepStart g u)).trace := by
    rw [hw]
    simp only [rowsOf_append, rowsOf_teardown, List.append_nil]
  have hvolt : voltagesOf (worker conv tmc g u env).trace
      = voltagesOf (sweepLoop conv tmc g.filename_vac env.step (sweepStart g u)).trace := by
    rw [hw]
    simp only [voltagesOf_append, voltagesOf_teardown, List.append_nil]
  refine ⟨by rw [hrows, hr], ?_, by rw [hvolt, hv], ?_, by simpa using hidx, ?_, ?_, ?_⟩
  · have := congrArg List.length hr
    rw [hrows]
    simpa using this
  · rw [hvolt, hv, List.range_succ, List.map_append, List.map_singleton,
      List.getLast?_append, List.getLast?_singleton]
    norm_num [VOLTAGE_STEP]
  · rw [hw]; exact hfin
  · refine ⟨t, ?_, hts, ?_⟩
    · rw [hw, ht]; simp
    · rw [hrows, ht, rowsOf_append]; simp [rowsOf]
  · intro N
    have h := exceeds_iff (N + 1)
    push_cast at h
    rw [h]
    omega

/-- C2, an instance: in the environment `envOk` the worker writes 101 data
lines and leaves the flag at 0. -/
theorem completed_sweep_witness :
    (rowsOf (worker decConv false globalsTest1 zeroLocals envOk).trace).length = 101
    ∧ (voltagesOf (worker decConv false globalsTest1 zeroLocals envOk).trace).getLast? = some 10
    ∧ (worker decConv false globalsTest1 zeroLocals envOk).run = 0 := by
  have h := completed_sweep decConv false globalsTest1 zeroLocals envOk rfl (by decide)
    (fun _ => rfl)
  exact ⟨h.2.1, h.2.2.2.1, h.2.2.2.2.2.1⟩

/-! ### Values carried over between sweep steps -/

/-- In the USBTMC build the VM answer `7` of the first step of `envTwoSteps` is
written as 7.1: after the read the buffer still holds the tail `.1, 0.2` of
the current response, and the text that follows it. -/
theorem usbtmc_stale_tail_parsed :
    (stepRow decConv true (envTwoSteps.step 0) (sweepStart globalsTest1 zeroLocals)).vm_voltage
      = 71 / 10 := by
  have hb : cstr (buf_vm true (envTwoSteps.step 0) (sweepStart globalsTest1 zeroLocals))
      = "7.1, 0.2> 2019-10-12_15-35-04_test1/gnuplot.log 2>&1".toList := by
    decide
  simp only [stepRow, hb]
  simp [atof, decConv, readDigits]
  norm_num

/-! ### The run flag under interleaving -/

theorem lastWrite_get (log : List FlagEvent) (t : Tid) (v : Int) :
    lastWrite (log ++ [FlagEvent.get t v]) = lastWrite log := by
  simp [lastWrite, List.foldl_append]

theorem lastWrite_set (log : List FlagEvent) (t : Tid) (v : Int) :
    lastWrite (log ++ [FlagEvent.set t v]) = v := by
  simp [lastWrite, List.foldl_append]

theorem getElem?_snoc_cases (log : List FlagEvent) (e x : FlagEvent) (k : Nat)
    (h : (log ++ [e])[k]? = some x) :
    (k < log.length ∧ log[k]? = some x ∧ (log ++ [e]).take k = log.take k)
    ∨ (k = log.length ∧ x = e ∧ (log ++ [e]).take k = log) := by
  rcases Nat.lt_trichotomy k log.length with hk | hk | hk
  · left
    refine ⟨hk, ?_, ?_⟩
    · rwa [List.getElem?_append_left hk] at h
    · rw [List.take_append_of_le_length (Nat.le_of_lt hk)]
  · right
    subst hk
    refine ⟨rfl, ?_, ?_⟩
    · rw [List.getElem?_append_right (le_refl _)] at h
      simpa using h.symm
    · simp
  · exfalso
    rw [List.getElem?_eq_none (by simp; omega)] at h
    simp at h

theorem flagInv_get (run : Int) (log : List FlagEvent) (t : Tid) (h : FlagInv run log) :
    FlagInv run (log ++ [FlagEvent.get t (get_run run)]) := by
  obtain ⟨h1, h2, h3⟩ := h
  refine ⟨by rw [lastWrite_get]; exact h1, ?_, ?_⟩
  · intro k t1 v hk
    rcases getElem?_snoc_cases _ _ _ _ hk with ⟨-, hx, ht⟩ | ⟨-, hx, ht⟩
    · rw [ht]; exact h2 k t1 v hx
    · rw [ht]
      injection hx with _ hv
      rw [hv]; exact h1
  · intro t1 v hm
    rw [List.mem_append] at hm
    rcases hm with hm | hm
    · exact h3 t1 v hm
    · simp at hm

theorem flagInv_set (run : Int) (log : List FlagEvent) (t : Tid) (h : FlagInv run log) :
    FlagInv (set_run run 0) (log ++ [FlagEvent.set t 0]) := by
  obtain ⟨-, h2, h3⟩ := h
  refine ⟨by rw [lastWrite_set]; rfl, ?_, ?_⟩
  · intro k t1 v hk
    rcases getElem?_snoc_cases _ _ _ _ hk with ⟨-, hx, ht⟩ | ⟨-, hx, -⟩
    · rw [ht]; exact h2 k t1 v hx
    · cases hx
  · intro t1 v hm
    rw [List.mem_append] at hm
    rcases hm with hm | hm
    · exact h3 t1 v hm
    · simp at hm
      exact hm.2

theorem flagInv_step (s : Sys) (a : Action) (h : FlagInv s.run s.log) :
    FlagInv (stepSys s a).run (stepSys s a).log := by
  cases a with
  | commander line =>
    simp only [stepSys, stepCommander]
    split
    · split
      · exact flagInv_get _ _ _ h
      · exact flagInv_get _ _ _ h
    · split
      · exact flagInv_set _ _ _ h
      · exact flagInv_set _ _ _ h
      · exact h
    · exact h
  | worker acquired =>
    simp only [stepSys, stepWorker]
    split
    · split <;> exact h
    · split
      · exact flagInv_get _ _ _ h
      · exact flagInv_get _ _ _ h
    · split
      · exact flagInv_set _ _ _ h
      · exact h
    · exact h
    · exact h
  | cancel =>
    simp only [stepSys]
    split <;> exact h

theorem flagInv_foldl (sched : List Action) (s : Sys) (h : FlagInv s.run s.log) :
    FlagInv (sched.foldl stepSys s).run (sched.foldl stepSys s).log := by
  induction sched generalizing s with
  | nil => exact h
  | cons a rest ih => exact ih (stepSys s a) (flagInv_step s a h)

theorem foldl_write_zero (l : List FlagEvent) (acc : Int)
    (hall : ∀ t v, FlagEvent.set t v ∈ l → v = 0)
    (hex : acc = 0 ∨ ∃ t, FlagEvent.set t 0 ∈ l) :
    l.foldl (fun acc e => match e with
      | FlagEvent.get _ _ => acc
      | FlagEvent.set _ v => v) acc = 0 := by
  induction l generalizing acc with
  | nil =>
    rcases hex with h | ⟨t, h⟩
    · exact h
    · simp at h
  | cons e rest ih =>
    rw [List.foldl_cons]
    apply ih
    · intro t v hm
      exact hall t v (List.mem_cons_of_mem _ hm)
    · cases e with
      | get t v =>
        rcases hex with h | ⟨t1, h⟩
        · exact Or.inl h
        · right
          refine ⟨t1, ?_⟩
          simpa using h
      | set t v =>
        left
        exact hall t v (List.mem_cons_self _ _)

/-- C8. For every interleaving of steps of the command thread, steps of the
worker and the cancellation, starting with the flag at 1: every `get_run`
returns the value written by the most recent `set_run` before it (1 if there
is none); every `set_run` of either thread writes 0; hence every `get_run`
that follows a `set_run(0)` returns 0; and the flag holds the last value
written. -/
theorem run_flag_history (sched : List Action) :
    (∀ (k : Nat) t v, (runSys sched).log[k]? = some (FlagEvent.get t v) →
        v = lastWrite ((runSys sched).log.take k))
    ∧ (∀ t v, FlagEvent.set t v ∈ (runSys sched).log → v = 0)
    ∧ (∀ (j k : Nat) t t1 v, j < k → (runSys sched).log[j]? = some (FlagEvent.set t 0) →
        (runSys sched).log[k]? = some (FlagEvent.get t1 v) → v = 0)
    ∧ (runSys sched).run = lastWrite (runSys sched).log := by
  have hinit : FlagInv Sys.init.run Sys.init.log := by
    refine ⟨rfl, ?_, ?_⟩
    · intro k t v h
      simp [Sys.init] at h
    · intro t v h
      simp [Sys.init] at h
  obtain ⟨h1, h2, h3⟩ := flagInv_foldl sched Sys.init hinit
  refine ⟨h2, h3, ?_, h1⟩
  intro j k t t1 v hjk hj hk
  rw [h2 k t1 v hk]
  apply foldl_write_zero
  · intro t2 v2 hm
    exact h3 t2 v2 (List.mem_of_mem_take hm)
  · right
    refine ⟨t, ?_⟩
    have hj1 : ((List.foldl stepSys Sys.init sched).log.take k)[j]?
        = some (FlagEvent.set t 0) := by
      rw [List.getElem?_take_of_lt hjk]
      exact hj
    exact List.getElem?_mem hj1

/-- C8, an instance: the command thread reads 1 and, on the line `q`, writes
0; the worker, once its resources are acquired, reads 0 and leaves the loop. -/
theorem run_flag_history_witness :
    (runSys [Action.commander none, Action.commander (some "q\n".toList),
        Action.worker true, Action.worker true]).log
      = [FlagEvent.get Tid.commander 1, FlagEvent.set Tid.commander 0,
          FlagEvent.get Tid.worker 0]
    ∧ ∀ t v, (runSys [Action.commander none, Action.commander (some "q\n".toList),
        Action.worker true, Action.worker true]).log[2]? = some (FlagEvent.get t v) → v = 0 :=
  ⟨by decide, fun t v h =>
    (run_flag_history [Action.commander none, Action.commander (some "q\n".toList),
      Action.worker true, Action.worker true]).2.2.1 1 2 Tid.commander t v (by decide)
      (by decide) h⟩

end Vac
